import Mathlib

/-!
Shallow embedding of the decision logic of the cluster-backup-operator
controllers (schedule orchestration, restore orchestration, backup
selection, collision detection) together with theorems checking the
natural-language specification against this embedding.

Sources embedded:
- controllers/restore_controller.go : backup selection (`getVeleroBackupName`,
  `mostRecentWithLessErrors`).
- controllers/schedule.go : `setSchedulePhase`, `isScheduleSpecUpdated`,
  `parseCronSchedule`, `scheduleOwnsLatestStorageBackups`.
- controllers/schedule_controller.go : `BackupScheduleReconciler.Reconcile`,
  `initVeleroSchedules`, `deleteVeleroSchedules`.
- functions whose bodies are not part of the analyzed source
  (`isValidSyncOptions`, `isSkipAllRestores`, `setRestorePhase`,
  `deleteDynamicResource`, `filterBackups`) are modelled from the
  specification; each such definition is marked `Modelled from the spec:`.

Go-to-Lean conventions used throughout:
- Go string maps with missing-key defaults are total functions returning ""
  for absent keys (association lists read through `getLabel`).
- `*metav1.Time` timestamps are `Option Int` (Unix epoch); `metav1.Time.Before`
  returns false when either pointer is nil, embedded by `tsBefore`.
- fallible external calls (List/Create/Delete against the API server) are
  inputs of the embedded functions: an `Option`/`Except` value or an
  environment record supplying the outcome of each call.
- `sort.Sort`/`sort.Slice` are embedded as an insertion sort over the same
  comparator; the Go library guarantees only that the result is a sorted
  reordering, and all theorems below use only order-and-membership facts
  that hold for every sorted reordering.
-/

/-- Embeds Go `strings.Contains s sub`: true when `sub` occurs as a
contiguous substring of `s`. -/
def strContains (s sub : String) : Bool :=
  s.toList.tails.any (fun t => sub.toList.isPrefixOf t)

/-- Go map read: the first value bound to `k`, or Go's zero value "" when the
key is absent (`m[k]` on a `map[string]string`). -/
def getLabel (labels : List (String × String)) (k : String) : String :=
  match labels.find? (fun p => p.1 == k) with
  | some p => p.2
  | none => ""

/-- Embeds `veleroapi.Backup` restricted to the fields the analyzed source
reads: name, `Status.Errors`, `Status.StartTimestamp` (nil-able),
`Status.Phase`, and the producing-cluster label
`Labels[BackupScheduleClusterLabel]` (Go map read, "" when absent). -/
structure Backup where
  name : String
  errors : Int
  startTimestamp : Option Int
  phase : String
  clusterLabel : String
deriving DecidableEq, Repr

instance : Inhabited Backup := ⟨⟨"", 0, none, "", ""⟩⟩

/-- Resource categories from `schedule_controller.go` (`ResourceType` consts)
plus the validation category referenced by `isScheduleSpecUpdated`. -/
inductive ResourceType
  | managedClusters
  | credentials
  | resources
  | validationSchedule
deriving DecidableEq, Repr

/-- Velero schedule name per category. The first three entries are the
`resourceTypes` map of schedule_controller.go. Modelled from the spec: the
validation-category name (the map entry for the validation-only schedule,
whose defining file is not part of the analyzed source). -/
def veleroScheduleNames : ResourceType → String
  | .managedClusters => "acm-managed-clusters-schedule"
  | .credentials => "acm-credentials-schedule"
  | .resources => "acm-resources-schedule"
  | .validationSchedule => "acm-validation-policy-schedule"

/-- Modelled from the spec: `filterBackups`, the generic artifact
filter/predicate helper (spec design notes), whose body is not part of the
analyzed source; contract: returns exactly the elements satisfying the
predicate, in order. -/
def filterBackups (items : List Backup) (pred : Backup → Bool) : List Backup :=
  items.filter pred

/-- Embeds `metav1.Time.Before`: true iff both timestamps are non-nil and the
first is strictly earlier. -/
def tsBefore : Option Int → Option Int → Bool
  | some a, some b => a < b
  | _, _ => false

/-- Embeds `mostRecentWithLessErrors.Less` (restore_controller.go): ascending
error count; among equal error counts, `backups[j].Status.StartTimestamp.Before
(backups[i].Status.StartTimestamp)`, i.e. the later start timestamp sorts
first. -/
def mostRecentWithLessErrorsLess (a b : Backup) : Bool :=
  if a.errors < b.errors then true
  else if a.errors > b.errors then false
  else tsBefore b.startTimestamp a.startTimestamp

/-- Insertion step of the sort embedding Go `sort.Sort` over a comparator. -/
def insertByLess (less : Backup → Backup → Bool) (b : Backup) :
    List Backup → List Backup
  | [] => [b]
  | c :: rest =>
    if less b c then b :: c :: rest else c :: insertByLess less b rest

/-- Insertion sort embedding Go `sort.Sort`/`sort.Slice`: produces a sorted
reordering of the input under the comparator. -/
def sortByLess (less : Backup → Backup → Bool) : List Backup → List Backup
  | [] => []
  | b :: rest => insertByLess less b (sortByLess less rest)

/-- Embeds the selection branch of `getVeleroBackupName`
(restore_controller.go). Inputs: the per-category explicit backup name from
the Restore spec (nil-able), the outcome of the `r.Get` existence check for an
explicit name, the outcome of the `r.Client.List` call (`none` embeds a list
error), and the resource category. -/
def getVeleroBackupName (specBackupName : Option String)
    (backupExists : String → Bool)
    (veleroBackups : Option (List Backup))
    (resourceType : ResourceType) : Except String String :=
  match specBackupName with
  | some n =>
    if n.length > 0 then
      if backupExists n then .ok n
      else .error ("cannot find " ++ n ++ " Velero Backup")
    else getVeleroBackupNameFromList veleroBackups resourceType
  | none => getVeleroBackupNameFromList veleroBackups resourceType
where
  /-- The "backup name not available, find a proper backup" branch. -/
  getVeleroBackupNameFromList (veleroBackups : Option (List Backup))
      (resourceType : ResourceType) : Except String String :=
    match veleroBackups with
    | none => .error "unable to list velero backups"
    | some items =>
      if items.length = 0 then .error "no backups found"
      else
        let relatedBackups := filterBackups items
          (fun bkp => strContains bkp.name (veleroScheduleNames resourceType))
        match sortByLess mostRecentWithLessErrorsLess relatedBackups with
        | [] => .error "no backups found"
        | best :: _ => .ok best.name

/-! ### Order facts about the embedded sort -/

theorem tsBefore_irrefl (t : Option Int) : tsBefore t t = false := by
  cases t <;> simp [tsBefore]

theorem tsBefore_trans {a b c : Option Int} (h1 : tsBefore a b = true)
    (h2 : tsBefore b c = true) : tsBefore a c = true := by
  cases a <;> cases b <;> cases c <;> simp [tsBefore] at * <;> omega

theorem tsBefore_asymm {a b : Option Int} (h : tsBefore a b = true) :
    tsBefore b a = false := by
  cases a <;> cases b <;> simp [tsBefore] at * <;> omega

theorem mrle_true_iff (a b : Backup) :
    mostRecentWithLessErrorsLess a b = true ↔
      (a.errors < b.errors ∨
        (a.errors = b.errors ∧
          tsBefore b.startTimestamp a.startTimestamp = true)) := by
  unfold mostRecentWithLessErrorsLess
  split_ifs with h1 h2
  · simp [h1]
  · simp only [Bool.false_eq_true, false_iff]
    rintro (h | ⟨he, _⟩) <;> omega
  · constructor
    · intro ht
      exact Or.inr ⟨by omega, ht⟩
    · rintro (h | ⟨_, ht⟩)
      · omega
      · exact ht

theorem mrle_asymm {a b : Backup}
    (h : mostRecentWithLessErrorsLess a b = true) :
    mostRecentWithLessErrorsLess b a = false := by
  rw [← Bool.not_eq_true]
  rw [mrle_true_iff] at h ⊢
  rcases h with h | ⟨he, ht⟩
  · rintro (h' | ⟨he', _⟩) <;> omega
  · rintro (h' | ⟨he', ht'⟩)
    · omega
    · simp [tsBefore_asymm ht] at ht'

theorem mrle_trans {a b c : Backup}
    (h1 : mostRecentWithLessErrorsLess a b = true)
    (h2 : mostRecentWithLessErrorsLess b c = true) :
    mostRecentWithLessErrorsLess a c = true := by
  rw [mrle_true_iff] at h1 h2 ⊢
  rcases h1 with h1 | ⟨he1, ht1⟩ <;> rcases h2 with h2 | ⟨he2, ht2⟩
  · exact Or.inl (by omega)
  · exact Or.inl (by omega)
  · exact Or.inl (by omega)
  · exact Or.inr ⟨by omega, tsBefore_trans ht2 ht1⟩

theorem mrle_irrefl (a : Backup) : mostRecentWithLessErrorsLess a a = false := by
  rw [← Bool.not_eq_true, mrle_true_iff]
  rintro (h | ⟨_, ht⟩)
  · omega
  · rw [tsBefore_irrefl] at ht; exact Bool.false_ne_true ht

theorem mem_insertByLess (less : Backup → Backup → Bool) (b x : Backup)
    (l : List Backup) : x ∈ insertByLess less b l ↔ x = b ∨ x ∈ l := by
  induction l with
  | nil => simp [insertByLess]
  | cons c rest ih =>
    by_cases h : less b c = true
    · simp [insertByLess, h]
    · simp [insertByLess, h, ih]
      tauto

theorem mem_sortByLess (less : Backup → Backup → Bool) (x : Backup)
    (l : List Backup) : x ∈ sortByLess less l ↔ x ∈ l := by
  induction l with
  | nil => simp [sortByLess]
  | cons b rest ih => simp [sortByLess, mem_insertByLess, ih]

/-- The ascending order left in place by the sort: no later element is
strictly less than an earlier one. -/
def SortedByLess (less : Backup → Backup → Bool) (l : List Backup) : Prop :=
  List.Pairwise (fun a b => less b a = false) l

theorem sortedByLess_insertByLess (less : Backup → Backup → Bool)
    (hasym : ∀ a b, less a b = true → less b a = false)
    (htrans : ∀ a b c, less a b = true → less b c = true → less a c = true)
    (b : Backup) :
    ∀ l : List Backup, SortedByLess less l →
      SortedByLess less (insertByLess less b l)
  | [], _ => by simp [insertByLess, SortedByLess]
  | c :: rest, h => by
    rw [SortedByLess, List.pairwise_cons] at h
    obtain ⟨hc, hrest⟩ := h
    by_cases hb : less b c = true
    · rw [insertByLess, if_pos hb, SortedByLess, List.pairwise_cons]
      refine ⟨?_, List.pairwise_cons.mpr ⟨hc, hrest⟩⟩
      intro x hx
      rcases List.mem_cons.mp hx with rfl | hx
      · exact hasym _ _ hb
      · rw [← Bool.not_eq_true]
        intro hxb
        have hxc : less x c = true := htrans _ _ _ hxb hb
        rw [hc x hx] at hxc
        exact Bool.false_ne_true hxc
    · rw [Bool.not_eq_true] at hb
      rw [insertByLess, if_neg (by simp [hb]), SortedByLess, List.pairwise_cons]
      refine ⟨?_, sortedByLess_insertByLess less hasym htrans b rest hrest⟩
      intro x hx
      rcases (mem_insertByLess less b x rest).mp hx with rfl | hx
      · exact hb
      · exact hc x hx

theorem sortedByLess_sortByLess (less : Backup → Backup → Bool)
    (hasym : ∀ a b, less a b = true → less b a = false)
    (htrans : ∀ a b c, less a b = true → less b c = true → less a c = true)
    (l : List Backup) : SortedByLess less (sortByLess less l) := by
  induction l with
  | nil => exact List.Pairwise.nil
  | cons b rest ih =>
    exact sortedByLess_insertByLess less hasym htrans b _ ih

theorem head_min_of_sorted (less : Backup → Backup → Bool)
    (hirrefl : ∀ a, less a a = false)
    {hd : Backup} {t : List Backup}
    (hs : SortedByLess less (hd :: t)) : ∀ x ∈ hd :: t, less x hd = false := by
  rw [SortedByLess, List.pairwise_cons] at hs
  obtain ⟨hh, _⟩ := hs
  intro x hx
  rcases List.mem_cons.mp hx with rfl | hx
  · exact hirrefl x
  · exact hh x hx

theorem mem_of_getLastQ : ∀ {l : List Backup} {m : Backup},
    l.getLast? = some m → m ∈ l
  | [], _, h => by simp at h
  | [c], m, h => by simp_all
  | c :: r :: rs, m, h => by
    rw [List.getLast?_cons_cons] at h
    exact List.mem_cons_of_mem c (mem_of_getLastQ h)

theorem last_max_of_sorted (less : Backup → Backup → Bool)
    (hirrefl : ∀ a, less a a = false) :
    ∀ (l : List Backup) (m : Backup), l.getLast? = some m →
      SortedByLess less l → ∀ x ∈ l, less m x = false
  | [], m, hm, _ => by simp at hm
  | [c], m, hm, _ => by
    simp only [List.getLast?_singleton, Option.some.injEq] at hm
    subst hm
    intro x hx
    rcases List.mem_cons.mp hx with rfl | hx
    · exact hirrefl x
    · simp at hx
  | c :: r :: rs, m, hm, hs => by
    rw [List.getLast?_cons_cons] at hm
    rw [SortedByLess, List.pairwise_cons] at hs
    obtain ⟨hc, hrest⟩ := hs
    intro x hx
    rcases List.mem_cons.mp hx with rfl | hx
    · exact hc m (mem_of_getLastQ hm)
    · exact last_max_of_sorted less hirrefl (r :: rs) m hm hrest x hx

/-! ### C1 : backup selection -/

/-- C1: for every list of backup artifacts, when no explicit backup name is
given, `getVeleroBackupName` returns the name of an artifact of the filtered
list (names containing the category schedule name) with the minimum reported
error count and, among artifacts tied at that minimum, with a start timestamp
not earlier than any of theirs; when the filtered list is empty it returns the
"no backups found" error. -/
theorem getVeleroBackupName_min_errors_latest
    (backupExists : String → Bool) (items : List Backup) (rt : ResourceType) :
    (filterBackups items
        (fun bkp => strContains bkp.name (veleroScheduleNames rt)) ≠ [] →
      ∃ best ∈ filterBackups items
          (fun bkp => strContains bkp.name (veleroScheduleNames rt)),
        getVeleroBackupName none backupExists (some items) rt = .ok best.name ∧
        ∀ x ∈ filterBackups items
            (fun bkp => strContains bkp.name (veleroScheduleNames rt)),
          best.errors ≤ x.errors ∧
          (x.errors = best.errors →
            tsBefore best.startTimestamp x.startTimestamp = false)) ∧
    (filterBackups items
        (fun bkp => strContains bkp.name (veleroScheduleNames rt)) = [] →
      getVeleroBackupName none backupExists (some items) rt =
        .error "no backups found") := by
  constructor
  · intro hne
    have hitems : items ≠ [] := by
      intro h
      rw [h] at hne
      exact hne rfl
    obtain ⟨y, hy⟩ := List.exists_mem_of_ne_nil _ hne
    have hysort : y ∈ sortByLess mostRecentWithLessErrorsLess
        (filterBackups items
          (fun bkp => strContains bkp.name (veleroScheduleNames rt))) :=
      (mem_sortByLess _ _ _).mpr hy
    obtain ⟨best, t, hsorted⟩ := List.exists_cons_of_ne_nil
      (List.ne_nil_of_mem hysort)
    have hbest_mem : best ∈ filterBackups items
        (fun bkp => strContains bkp.name (veleroScheduleNames rt)) :=
      (mem_sortByLess _ _ _).mp (hsorted ▸ List.mem_cons_self best t)
    refine ⟨best, hbest_mem, ?_, ?_⟩
    · simp only [getVeleroBackupName, getVeleroBackupName.getVeleroBackupNameFromList]
      rw [if_neg (by simpa using hitems), hsorted]
    · intro x hx
      have hxs : x ∈ best :: t := hsorted ▸ (mem_sortByLess _ _ _).mpr hx
      have hsorted' : SortedByLess mostRecentWithLessErrorsLess (best :: t) :=
        hsorted ▸ sortedByLess_sortByLess mostRecentWithLessErrorsLess
          (fun _ _ h => mrle_asymm h) (fun _ _ _ h1 h2 => mrle_trans h1 h2) _
      have hmin := head_min_of_sorted _ mrle_irrefl hsorted' x hxs
      rw [← Bool.not_eq_true, mrle_true_iff] at hmin
      push_neg at hmin
      exact ⟨hmin.1, fun he => by
        rcases hb : tsBefore best.startTimestamp x.startTimestamp with _ | _
        · rfl
        · exact absurd hb (hmin.2 he)⟩
  · intro hempty
    by_cases hi : items = []
    · subst hi
      rfl
    · simp only [getVeleroBackupName, getVeleroBackupName.getVeleroBackupNameFromList]
      rw [if_neg (by simpa using hi), hempty]
      rfl

/-- Concrete backup list used by witnesses. -/
def demoBackups : List Backup :=
  [⟨"acm-resources-schedule-1", 2, some 10, "", ""⟩,
   ⟨"acm-resources-schedule-2", 0, some 5, "", ""⟩,
   ⟨"acm-resources-schedule-3", 0, some 8, "", ""⟩]

/-- Witness for C1: the theorem applied to a concrete backup list. -/
theorem getVeleroBackupName_min_errors_latest_witness :
    ∃ best ∈ filterBackups demoBackups
        (fun bkp => strContains bkp.name
          (veleroScheduleNames ResourceType.resources)),
      getVeleroBackupName none (fun _ => false) (some demoBackups)
          ResourceType.resources = .ok best.name ∧
      ∀ x ∈ filterBackups demoBackups
          (fun bkp => strContains bkp.name
            (veleroScheduleNames ResourceType.resources)),
        best.errors ≤ x.errors ∧
        (x.errors = best.errors →
          tsBefore best.startTimestamp x.startTimestamp = false) :=
  (getVeleroBackupName_min_errors_latest (fun _ => false) demoBackups
    ResourceType.resources).1 (by decide)

/-! ### Schedule orchestrator data model (schedule.go, schedule_controller.go) -/

/-- Embeds `v1beta1.SchedulePhase`. -/
inductive SchedulePhase
  | new
  | failedValidation
  | failed
  | unknown
  | enabled
  | backupCollision
deriving DecidableEq, Repr

/-- FailedPhaseMsg constant from schedule.go. -/
def FailedPhaseMsg : String := "Velero schedules initialization failed"

/-- NewPhaseMsg constant from schedule.go. -/
def NewPhaseMsg : String := "Velero schedules are initialized"

/-- EnabledPhaseMsg constant from schedule.go. -/
def EnabledPhaseMsg : String := "Velero schedules are enabled"

/-- UnknownPhaseMsg constant from schedule.go. -/
def UnknownPhaseMsg : String :=
  "Some Velero schedules are not enabled. " ++
  "If the status doesn't change check the velero pod is running and " ++
  "that you have created a Velero resource as documented in the install guide."

/-- Embeds `veleroapi.Schedule` restricted to the fields the analyzed source
reads: name, `Spec.Schedule` (cron), `Spec.Template.TTL.Duration`,
`Status.Phase`. -/
structure VeleroScheduleRes where
  name : String
  cronSpec : String
  ttl : Int
  phase : String
deriving DecidableEq, Repr

/-- Embeds `v1beta1.BackupScheduleStatus`. -/
structure BackupScheduleStatus where
  phase : SchedulePhase
  lastMessage : String
  veleroScheduleManagedClusters : Option VeleroScheduleRes
  veleroScheduleCredentials : Option VeleroScheduleRes
  veleroScheduleResources : Option VeleroScheduleRes
deriving DecidableEq, Repr

/-- Embeds `v1beta1.BackupSchedule` restricted to the fields the analyzed
source reads: `Spec.VeleroSchedule` (cron), `Spec.VeleroTTL.Duration`,
`Spec.MaxBackups`, and its status. -/
structure BackupSchedule where
  veleroSchedule : String
  veleroTTL : Int
  maxBackups : Nat
  status : BackupScheduleStatus
deriving DecidableEq, Repr

/-- Embeds `setVeleroScheduleInStatus` (schedule.go): stores a copy of the
velero schedule in the per-category status reference; the switch has no case
for the validation category, so that category is a no-op. -/
def setVeleroScheduleInStatus (resourceType : ResourceType)
    (veleroSchedule : VeleroScheduleRes) (backupSchedule : BackupSchedule) :
    BackupSchedule :=
  match resourceType with
  | .managedClusters =>
    { backupSchedule with status :=
      { backupSchedule.status with
        veleroScheduleManagedClusters := some veleroSchedule } }
  | .credentials =>
    { backupSchedule with status :=
      { backupSchedule.status with
        veleroScheduleCredentials := some veleroSchedule } }
  | .resources =>
    { backupSchedule with status :=
      { backupSchedule.status with
        veleroScheduleResources := some veleroSchedule } }
  | .validationSchedule => backupSchedule

/-- Embeds `updateScheduleStatus` (schedule.go): the loop over
`veleroScheduleNames` matching on the velero schedule's name. -/
def updateScheduleStatus (veleroSchedule : VeleroScheduleRes)
    (backupSchedule : BackupSchedule) : BackupSchedule :=
  if veleroSchedule.name = veleroScheduleNames .managedClusters then
    setVeleroScheduleInStatus .managedClusters veleroSchedule backupSchedule
  else if veleroSchedule.name = veleroScheduleNames .credentials then
    setVeleroScheduleInStatus .credentials veleroSchedule backupSchedule
  else if veleroSchedule.name = veleroScheduleNames .resources then
    setVeleroScheduleInStatus .resources veleroSchedule backupSchedule
  else backupSchedule

/-- Helper for the status-phase writes of `setSchedulePhase`. -/
def setPhaseMsg (backupSchedule : BackupSchedule) (phase : SchedulePhase)
    (msg : String) : BackupSchedule :=
  { backupSchedule with status :=
    { backupSchedule.status with phase := phase, lastMessage := msg } }

/-- Embeds the child-scanning loop of `setSchedulePhase` (schedule.go,
`for i := range schedules.Items`): the first child whose reported phase is
empty, `New` or `FailedValidation` decides the parent phase and the loop
returns; if no child matches, the parent becomes `Enabled`. -/
def setSchedulePhaseLoop : List VeleroScheduleRes → BackupSchedule →
    BackupSchedule
  | [], backupSchedule => setPhaseMsg backupSchedule .enabled EnabledPhaseMsg
  | veleroSchedule :: rest, backupSchedule =>
    if veleroSchedule.phase = "" then
      setPhaseMsg backupSchedule .unknown UnknownPhaseMsg
    else if veleroSchedule.phase = "New" then
      setPhaseMsg backupSchedule .new NewPhaseMsg
    else if veleroSchedule.phase = "FailedValidation" then
      setPhaseMsg backupSchedule .failedValidation FailedPhaseMsg
    else setSchedulePhaseLoop rest backupSchedule

/-- Embeds `setSchedulePhase` (schedule.go). `none` embeds a nil schedule
list pointer. -/
def setSchedulePhase (schedules : Option (List VeleroScheduleRes))
    (backupSchedule : BackupSchedule) : BackupSchedule :=
  if backupSchedule.status.phase = .backupCollision then backupSchedule
  else
    match schedules with
    | none => setPhaseMsg backupSchedule .new NewPhaseMsg
    | some [] => setPhaseMsg backupSchedule .new NewPhaseMsg
    | some items => setSchedulePhaseLoop items backupSchedule

/-- Embeds `isScheduleSpecUpdated` (schedule.go): true when some child's TTL
differs from the spec TTL (skipped for the validation schedule) or some
child's cron expression differs from the spec cron expression. -/
def isScheduleSpecUpdated (schedules : Option (List VeleroScheduleRes))
    (backupSchedule : BackupSchedule) : Bool :=
  match schedules with
  | none => false
  | some items =>
    items.any (fun veleroSchedule =>
      (veleroSchedule.name != veleroScheduleNames .validationSchedule &&
        veleroSchedule.ttl != backupSchedule.veleroTTL) ||
      veleroSchedule.cronSpec != backupSchedule.veleroSchedule)

/-- Outcome of the robfig/cron `ParseStandard` call: success, an error
return, or a panic (recovered by `parseCronSchedule`). -/
inductive CronParseResult
  | ok
  | err (msg : String)
  | panicked (msg : String)
deriving DecidableEq, Repr

/-- Embeds `parseCronSchedule` (schedule.go). The cron parser itself is an
external library and is an input; both an error return and a recovered panic
produce an "invalid schedule: ..." validation message, and an empty
expression short-circuits before the parser runs. -/
def parseCronSchedule (cronParse : String → CronParseResult)
    (backupSchedule : BackupSchedule) : List String :=
  if backupSchedule.veleroSchedule.length = 0 then
    ["Schedule must be a non-empty valid Cron expression"]
  else
    match cronParse backupSchedule.veleroSchedule with
    | .ok => []
    | .err m => ["invalid schedule: " ++ m]
    | .panicked m => ["invalid schedule: " ++ m]

/-- Externally observable calls issued by one schedule reconciliation cycle
against child sub-resources and status. -/
inductive SchedAction
  | listSchedules
  | createSchedule (name : String)
  | deleteSchedule (name : String)
  | cleanupBackups (maxCount : Nat)
  | updateStatus
deriving DecidableEq, Repr

/-- Outcomes of the external calls one schedule reconciliation cycle can
make: the cron library, the child List call, and per-target Create/Delete
calls (`some msg` embeds an error return). -/
structure SchedEnv where
  cronParse : String → CronParseResult
  listSchedulesResult : Except String (List VeleroScheduleRes)
  createResult : ResourceType → Option String
  deleteResult : String → Option String

/-- Embeds `time.Duration.Truncate(time.Second)` on nanosecond counts. -/
def truncSeconds (d : Int) : Int := (d / 1000000000) * 1000000000

/-- The velero schedule built by `initVeleroSchedules` for one category:
fresh template (zero TTL), the spec cron expression, and the spec TTL when
`VeleroTTL.Truncate(time.Second)` is non-zero. -/
def newVeleroSchedule (resourceType : ResourceType)
    (backupSchedule : BackupSchedule) : VeleroScheduleRes :=
  { name := veleroScheduleNames resourceType
    cronSpec := backupSchedule.veleroSchedule
    ttl := if truncSeconds backupSchedule.veleroTTL ≠ 0 then
        backupSchedule.veleroTTL
      else 0
    phase := "" }

/-- Recursion of `initVeleroSchedules` over the categories of the
`resourceTypes` map (Go map iteration order is unspecified; a fixed order is
used here, and no theorem depends on it). Returns the updated status-carrying
schedule, the Create calls issued, and whether a Create call failed (which
aborts the loop). -/
def initVeleroSchedulesGo (env : SchedEnv) :
    List ResourceType → BackupSchedule →
      BackupSchedule × List SchedAction × Bool
  | [], backupSchedule => (backupSchedule, [], false)
  | resourceType :: rest, backupSchedule =>
    match env.createResult resourceType with
    | some _ =>
      (backupSchedule, [.createSchedule (veleroScheduleNames resourceType)],
        true)
    | none =>
      let backupSchedule' := setVeleroScheduleInStatus resourceType
        (newVeleroSchedule resourceType backupSchedule) backupSchedule
      let out := initVeleroSchedulesGo env rest backupSchedule'
      (out.1, .createSchedule (veleroScheduleNames resourceType) :: out.2.1,
        out.2.2)

/-- Embeds `initVeleroSchedules` (schedule_controller.go). -/
def initVeleroSchedules (env : SchedEnv) (backupSchedule : BackupSchedule) :
    BackupSchedule × List SchedAction × Bool :=
  initVeleroSchedulesGo env [.managedClusters, .credentials, .resources]
    backupSchedule

/-- Delete calls issued by `deleteVeleroSchedules` in list order; aborts at
the first Delete error. -/
def deleteVeleroSchedulesGo (env : SchedEnv) :
    List VeleroScheduleRes → List SchedAction × Bool
  | [] => ([], false)
  | veleroSchedule :: rest =>
    match env.deleteResult veleroSchedule.name with
    | some _ => ([.deleteSchedule veleroSchedule.name], true)
    | none =>
      let out := deleteVeleroSchedulesGo env rest
      (.deleteSchedule veleroSchedule.name :: out.1, out.2)

/-- Embeds `deleteVeleroSchedules` (schedule_controller.go): deletes every
owned child in list order; on success resets phase to New and clears the
three per-category status references; a nil/empty list returns immediately. -/
def deleteVeleroSchedules (env : SchedEnv) (backupSchedule : BackupSchedule)
    (schedules : List VeleroScheduleRes) :
    BackupSchedule × List SchedAction × Bool :=
  if schedules.isEmpty then (backupSchedule, [], false)
  else
    let out := deleteVeleroSchedulesGo env schedules
    if out.2 then (backupSchedule, out.1, true)
    else
      ({ backupSchedule with status :=
          { phase := .new
            lastMessage := NewPhaseMsg
            veleroScheduleManagedClusters := none
            veleroScheduleCredentials := none
            veleroScheduleResources := none } },
        out.1, false)

/-- Result of one embedded schedule reconciliation cycle: the in-memory
schedule (whose status the cycle persists), the external calls issued, a
reconciliation error flag, and whether a requeue-after interval was
returned. -/
structure SchedReconcileOut where
  sched : BackupSchedule
  actions : List SchedAction
  isError : Bool
  requeue : Bool
deriving DecidableEq, Repr

/-- Embeds `BackupScheduleReconciler.Reconcile` (schedule_controller.go)
after a successful Get of the BackupSchedule: cron validation, child listing,
create-all / drift-delete / status-aggregation branches, and the retention
sweep call (`cleanupBackups`, an external capability, recorded as an
action). -/
def reconcileBackupSchedule (env : SchedEnv)
    (backupSchedule : BackupSchedule) : SchedReconcileOut :=
  let errs := parseCronSchedule env.cronParse backupSchedule
  if errs.length > 0 then
    { sched := setPhaseMsg backupSchedule .failedValidation
        (String.intercalate "," errs)
      actions := [.updateStatus], isError := false, requeue := false }
  else
    match env.listSchedulesResult with
    | .error _ =>
      { sched := backupSchedule, actions := [.listSchedules]
        isError := true, requeue := false }
    | .ok items =>
      if items.length = 0 then
        let out := initVeleroSchedules env backupSchedule
        let sched' :=
          if out.2.2 then setPhaseMsg out.1 .failed FailedPhaseMsg
          else setPhaseMsg out.1 .new NewPhaseMsg
        { sched := sched'
          actions := .listSchedules :: out.2.1 ++ [.updateStatus]
          isError := false, requeue := true }
      else if isScheduleSpecUpdated (some items) backupSchedule then
        let out := deleteVeleroSchedules env backupSchedule items
        if out.2.2 then
          { sched := out.1, actions := .listSchedules :: out.2.1
            isError := true, requeue := false }
        else
          { sched := out.1
            actions := .listSchedules :: out.2.1 ++ [.updateStatus]
            isError := false, requeue := true }
      else
        let sched' := setSchedulePhase (some items)
          (items.foldl (fun b v => updateScheduleStatus v b) backupSchedule)
        { sched := sched'
          actions := [.listSchedules, .cleanupBackups (backupSchedule.maxBackups * 3),
            .updateStatus]
          isError := false, requeue := true }

/-- Comparator of the `sort.Slice` call in
`scheduleOwnsLatestStorageBackups`: ascending Unix start time, a nil
timestamp counting as 0. -/
def timeLess (a b : Backup) : Bool :=
  a.startTimestamp.getD 0 < b.startTimestamp.getD 0

/-- Embeds `scheduleOwnsLatestStorageBackups` (schedule.go). Inputs: the
cluster label of the given schedule (`GetLabels()[BackupScheduleClusterLabel]`,
"" when absent) and the outcome of listing the backups labelled with the
resources-category schedule name (`none` embeds a List error). Returns the
ownership flag and, on collision, the offending backup. -/
def scheduleOwnsLatestStorageBackups (schedClusterLabel : String)
    (backups : Option (List Backup)) : Bool × Option Backup :=
  match backups with
  | none => (true, none)
  | some items =>
    let sliceBackups := filterBackups items (fun bkp => bkp.phase != "Deleting")
    match (sortByLess timeLess sliceBackups).getLast? with
    | none => (true, none)
    | some lastBackup =>
      if lastBackup.clusterLabel != schedClusterLabel then
        (false, some lastBackup)
      else (true, none)

/-! ### Restore orchestrator data model -/

/-- Embeds `v1beta1.CleanupType` (spec data model: `None` or `All`). -/
inductive CleanupType
  | cleanupNone
  | cleanupAll
deriving DecidableEq, Repr

/-- Embeds `v1beta1.RestorePhase`. -/
inductive RestorePhase
  | started
  | running
  | finished
  | enabled
  | unknown
  | failedValidation
deriving DecidableEq, Repr

/-- Embeds `v1beta1.Restore` restricted to the fields the claims read: the
sync flag and interval, the cleanup policy, the three per-category backup
selections (nil-able), and the current status phase. -/
structure Restore where
  syncRestoreWithNewBackups : Bool
  restoreSyncInterval : Int
  cleanupBeforeRestore : CleanupType
  veleroManagedClustersBackupName : Option String
  veleroCredentialsBackupName : Option String
  veleroResourcesBackupName : Option String
  phase : RestorePhase
deriving DecidableEq, Repr

/-- Embeds a velero restore sub-resource restricted to its observed phase. -/
structure VeleroRestoreRes where
  name : String
  phase : String
deriving DecidableEq, Repr

/-- Modelled from the spec: one category selection counts as "skip" for
`isSkipAllRestores` when it is unset (nil) or exactly "skip" (spec 4.3:
"unset is equivalent to skip for this predicate"). -/
def isSkipRestoreName : Option String → Bool
  | none => true
  | some s => s == "skip"

/-- Modelled from the spec: `isSkipAllRestores` (its body is not part of the
analyzed source; spec 4.3): true iff every one of the three category
selections is either unset (nil) or exactly "skip". -/
def isSkipAllRestores (restore : Restore) : Bool :=
  isSkipRestoreName restore.veleroManagedClustersBackupName &&
  isSkipRestoreName restore.veleroCredentialsBackupName &&
  isSkipRestoreName restore.veleroResourcesBackupName

/-- Modelled from the spec: `isValidSyncOptions` (its body is not part of the
analyzed source; spec 4.3): valid iff sync is enabled, cleanup is `All`, the
resources selection is exactly "latest", the credentials selection is
"latest" or "skip", and the managed-clusters selection is present (a
nil/unset selection is invalid input for this check). -/
def isValidSyncOptions (restore : Restore) : Bool :=
  restore.syncRestoreWithNewBackups &&
  restore.cleanupBeforeRestore == .cleanupAll &&
  restore.veleroManagedClustersBackupName.isSome &&
  restore.veleroResourcesBackupName == some "latest" &&
  (restore.veleroCredentialsBackupName == some "latest" ||
    restore.veleroCredentialsBackupName == some "skip")

/-- Modelled from the spec: `isVeleroRestoreFinished` on an observed child
phase (terminal velero restore phases). -/
def isVeleroRestoreFinished (veleroRestore : Option VeleroRestoreRes) : Bool :=
  match veleroRestore with
  | none => false
  | some v =>
    v.phase == "Completed" || v.phase == "Failed" ||
    v.phase == "PartiallyFailed"

/-- Modelled from the spec: `isVeleroRestoreRunning` on an observed child
phase (a child accepted by the engine and not yet terminal). -/
def isVeleroRestoreRunning (veleroRestore : Option VeleroRestoreRes) : Bool :=
  match veleroRestore with
  | none => false
  | some v => v.phase == "New" || v.phase == "InProgress"

/-- Modelled from the spec: `setRestorePhase` (its body is not part of the
analyzed source; spec 4.4 item 4): with no owned sub-resources the phase is
`Finished` when `isSkipAllRestores` holds and `Started` otherwise; with
sub-resources the phase aggregates child states (unknown > running >
enabled-while-sync-is-validly-active > finished). `none` embeds a nil list
pointer. -/
def setRestorePhase (restoreList : Option (List VeleroRestoreRes))
    (restore : Restore) : RestorePhase :=
  match restoreList with
  | none => if isSkipAllRestores restore then .finished else .started
  | some [] => if isSkipAllRestores restore then .finished else .started
  | some items =>
    if items.any (fun v => !(isVeleroRestoreFinished (some v)) &&
        !(isVeleroRestoreRunning (some v))) then .unknown
    else if items.any (fun v => isVeleroRestoreRunning (some v)) then .running
    else if isValidSyncOptions restore then .enabled
    else .finished

/-- Scope of a REST mapping: namespace-scoped or cluster-scoped. -/
inductive RESTScope
  | namespaced
  | clusterScoped
deriving DecidableEq, Repr

/-- A dynamic (unstructured) resource restricted to what the deletion rules
read: its namespace ("" when cluster-scoped/unset) and its labels. -/
structure DynResource where
  name : String
  ns : String
  labels : List (String × String)
deriving DecidableEq, Repr

/-- Modelled from the spec: `deleteDynamicResource` (its body is not part of
the analyzed source; spec testable properties): deleting a namespaced
resource is suppressed iff its namespace is the reserved local-cluster
namespace, or is in the caller-supplied exclusion list, or the resource
carries the `velero.io/exclude-from-backup: "true"` label; cluster-scoped
resources are always eligible. Returns whether the resource was processed
(a deletion call was issued). -/
def deleteDynamicResource (scope : RESTScope) (resource : DynResource)
    (excludedNamespaces : List String) : Bool :=
  match scope with
  | .clusterScoped => true
  | .namespaced =>
    !(resource.ns == "local-cluster" ||
      excludedNamespaces.contains resource.ns ||
      getLabel resource.labels "velero.io/exclude-from-backup" == "true")

/-! ### C2 : schedule phase aggregation -/

/-- Reference aggregation for the amended C2 claim: the first child in list
order whose reported phase is empty, `New` or `FailedValidation` decides the
parent phase and message; `Enabled` when no child matches. -/
def firstDecidingChildPhase (items : List VeleroScheduleRes) :
    SchedulePhase × String :=
  match items.find? (fun v =>
      v.phase == "" || v.phase == "New" || v.phase == "FailedValidation") with
  | none => (.enabled, EnabledPhaseMsg)
  | some v =>
    if v.phase = "" then (.unknown, UnknownPhaseMsg)
    else if v.phase = "New" then (.new, NewPhaseMsg)
    else (.failedValidation, FailedPhaseMsg)

theorem setSchedulePhaseLoop_eq (backupSchedule : BackupSchedule) :
    ∀ items, setSchedulePhaseLoop items backupSchedule =
      setPhaseMsg backupSchedule (firstDecidingChildPhase items).1
        (firstDecidingChildPhase items).2
  | [] => rfl
  | v :: rest => by
    by_cases h1 : v.phase = ""
    · simp [setSchedulePhaseLoop, firstDecidingChildPhase, List.find?_cons, h1]
    · by_cases h2 : v.phase = "New"
      · simp [setSchedulePhaseLoop, firstDecidingChildPhase, List.find?_cons,
          h1, h2]
      · by_cases h3 : v.phase = "FailedValidation"
        · simp [setSchedulePhaseLoop, firstDecidingChildPhase,
            List.find?_cons, h1, h2, h3]
        · simp only [setSchedulePhaseLoop, if_neg h1, if_neg h2, if_neg h3]
          rw [setSchedulePhaseLoop_eq backupSchedule rest]
          simp [firstDecidingChildPhase, List.find?_cons, h1, h2, h3]

/-- Concrete parent schedule used by the C2 statements: a non-collision
phase. -/
def schedEnabledC2 : BackupSchedule :=
  ⟨"0 * * * *", 0, 1, ⟨.enabled, "", none, none, none⟩⟩

/-- Concrete child reporting velero phase `New`. -/
def childNewC2 : VeleroScheduleRes :=
  ⟨"acm-credentials-schedule", "0 * * * *", 0, "New"⟩

/-- Concrete child with an empty reported phase. -/
def childNoPhaseC2 : VeleroScheduleRes :=
  ⟨"acm-resources-schedule", "0 * * * *", 0, ""⟩

/-- C2 counterexample: for the child list [phase `New`, phase empty] on a
non-collision parent, some child has an empty reported phase, yet the code
does not set `Unknown` (it sets `New`, because the first scanned child
decides): the claimed any-empty-implies-Unknown aggregation is false. -/
theorem setSchedulePhase_priority_claim_false :
    schedEnabledC2.status.phase ≠ SchedulePhase.backupCollision ∧
    (∃ v ∈ [childNewC2, childNoPhaseC2], v.phase = "") ∧
    (setSchedulePhase (some [childNewC2, childNoPhaseC2])
        schedEnabledC2).status.phase ≠ SchedulePhase.unknown := by
  refine ⟨by decide, ⟨childNoPhaseC2, by decide, rfl⟩, by decide⟩

/-- C2 (amended): for a BackupSchedule already in `BackupCollision`,
`setSchedulePhase` leaves it unchanged for every input list; otherwise, for a
non-empty child list, the parent phase and message are decided by the first
child in list order whose reported phase is empty (`Unknown`), `New` (`New`)
or `FailedValidation` (`FailedValidation`), and are `Enabled` when no child
matches. -/
theorem setSchedulePhase_first_match (backupSchedule : BackupSchedule)
    (schedules : Option (List VeleroScheduleRes))
    (items : List VeleroScheduleRes) :
    (backupSchedule.status.phase = .backupCollision →
      setSchedulePhase schedules backupSchedule = backupSchedule) ∧
    (backupSchedule.status.phase ≠ .backupCollision → items ≠ [] →
      (setSchedulePhase (some items) backupSchedule).status.phase =
        (firstDecidingChildPhase items).1 ∧
      (setSchedulePhase (some items) backupSchedule).status.lastMessage =
        (firstDecidingChildPhase items).2) := by
  constructor
  · intro h
    simp [setSchedulePhase, h]
  · intro h hne
    obtain ⟨v, rest, rfl⟩ := List.exists_cons_of_ne_nil hne
    have hred : setSchedulePhase (some (v :: rest)) backupSchedule =
        setSchedulePhaseLoop (v :: rest) backupSchedule := by
      unfold setSchedulePhase
      rw [if_neg h]
    rw [hred, setSchedulePhaseLoop_eq]
    exact ⟨rfl, rfl⟩

/-- Witness for the amended C2: the theorem applied to the concrete
two-child list. -/
theorem setSchedulePhase_first_match_witness :
    (setSchedulePhase (some [childNewC2, childNoPhaseC2])
        schedEnabledC2).status.phase =
      (firstDecidingChildPhase [childNewC2, childNoPhaseC2]).1 ∧
    (setSchedulePhase (some [childNewC2, childNoPhaseC2])
        schedEnabledC2).status.lastMessage =
      (firstDecidingChildPhase [childNewC2, childNoPhaseC2]).2 :=
  (setSchedulePhase_first_match schedEnabledC2
    (some [childNewC2, childNoPhaseC2]) [childNewC2, childNoPhaseC2]).2
    (by decide) (by decide)

/-! ### C3, C10 : storage-collision detection -/

theorem timeLess_irrefl (a : Backup) : timeLess a a = false := by
  simp [timeLess]

theorem timeLess_asymm {a b : Backup} (h : timeLess a b = true) :
    timeLess b a = false := by
  simp [timeLess] at *
  omega

theorem timeLess_trans {a b c : Backup} (h1 : timeLess a b = true)
    (h2 : timeLess b c = true) : timeLess a c = true := by
  simp [timeLess] at *
  omega

/-- C3: over a successfully listed backup set whose non-Deleting artifacts
have pairwise distinct start-time keys, `scheduleOwnsLatestStorageBackups`
reports a collision (false) iff some non-Deleting artifact with the maximal
start-time key carries a cluster label different from the schedule's, and in
that case the offending artifact is returned. -/
theorem scheduleOwnsLatestStorageBackups_collision_iff
    (schedClusterLabel : String) (items : List Backup)
    (hdist : (filterBackups items (fun bkp => bkp.phase != "Deleting")).Pairwise
      (fun a b => a.startTimestamp.getD 0 ≠ b.startTimestamp.getD 0)) :
    (scheduleOwnsLatestStorageBackups schedClusterLabel (some items)).1 =
        false ↔
      ∃ b ∈ filterBackups items (fun bkp => bkp.phase != "Deleting"),
        (∀ x ∈ filterBackups items (fun bkp => bkp.phase != "Deleting"),
          x.startTimestamp.getD 0 ≤ b.startTimestamp.getD 0) ∧
        b.clusterLabel ≠ schedClusterLabel ∧
        (scheduleOwnsLatestStorageBackups schedClusterLabel (some items)).2 =
          some b := by
  have hsorted : SortedByLess timeLess
      (sortByLess timeLess (filterBackups items (fun bkp => bkp.phase != "Deleting"))) :=
    sortedByLess_sortByLess timeLess (fun _ _ h => timeLess_asymm h)
      (fun _ _ _ h1 h2 => timeLess_trans h1 h2) _
  cases hlast : (sortByLess timeLess
      (filterBackups items (fun bkp => bkp.phase != "Deleting"))).getLast? with
  | none =>
    have hnil : sortByLess timeLess
        (filterBackups items (fun bkp => bkp.phase != "Deleting")) = [] :=
      List.getLast?_eq_none_iff.mp hlast
    have hfe : filterBackups items (fun bkp => bkp.phase != "Deleting") = [] := by
      rcases hf : filterBackups items (fun bkp => bkp.phase != "Deleting") with
        _ | ⟨y, t⟩
      · rfl
      · have : y ∈ sortByLess timeLess
            (filterBackups items (fun bkp => bkp.phase != "Deleting")) :=
          (mem_sortByLess _ _ _).mpr (hf ▸ List.mem_cons_self y t)
        rw [hnil] at this
        simp at this
    have hres : scheduleOwnsLatestStorageBackups schedClusterLabel
        (some items) = (true, none) := by
      simp only [scheduleOwnsLatestStorageBackups]
      rw [hlast]
    constructor
    · intro hfalse
      rw [hres] at hfalse
      simp at hfalse
    · rintro ⟨b, hb, -⟩
      rw [hfe] at hb
      simp at hb
  | some m =>
    have hm_filtered : m ∈ filterBackups items (fun bkp => bkp.phase != "Deleting") :=
      (mem_sortByLess _ _ _).mp (mem_of_getLastQ hlast)
    have hmaxLe : ∀ x ∈ filterBackups items (fun bkp => bkp.phase != "Deleting"),
        x.startTimestamp.getD 0 ≤ m.startTimestamp.getD 0 := by
      intro x hx
      have h := last_max_of_sorted timeLess timeLess_irrefl _ m hlast hsorted x
        ((mem_sortByLess _ _ _).mpr hx)
      simp [timeLess] at h
      omega
    by_cases hlabel : m.clusterLabel = schedClusterLabel
    · have hres : scheduleOwnsLatestStorageBackups schedClusterLabel
          (some items) = (true, none) := by
        simp only [scheduleOwnsLatestStorageBackups]
        rw [hlast]
        simp [hlabel]
      constructor
      · intro hfalse
        rw [hres] at hfalse
        simp at hfalse
      · rintro ⟨b, hb, hbmax, hbl, -⟩
        exfalso
        have h1 : m.startTimestamp.getD 0 ≤ b.startTimestamp.getD 0 :=
          hbmax m hm_filtered
        have h2 : b.startTimestamp.getD 0 ≤ m.startTimestamp.getD 0 :=
          hmaxLe b hb
        rcases eq_or_ne b m with rfl | hbm
        · exact hbl hlabel
        · exact List.Pairwise.forall (fun x y hxy => (Ne.symm hxy)) hdist
            hb hm_filtered hbm (by omega)
    · have hres : scheduleOwnsLatestStorageBackups schedClusterLabel
          (some items) = (false, some m) := by
        simp only [scheduleOwnsLatestStorageBackups]
        rw [hlast]
        simp [hlabel]
      constructor
      · intro _
        exact ⟨m, hm_filtered, hmaxLe, hlabel, by rw [hres]⟩
      · intro _
        rw [hres]

/-- Concrete backup list for the C3 witness: two owned by different hubs,
the later one by hubB. -/
def collisionBackupsC3 : List Backup :=
  [⟨"b1", 0, some 5, "", "hubA"⟩, ⟨"b2", 0, some 9, "", "hubB"⟩]

/-- Witness for C3: the theorem applied to a concrete collision. -/
theorem scheduleOwnsLatestStorageBackups_collision_iff_witness :
    ∃ b ∈ filterBackups collisionBackupsC3 (fun bkp => bkp.phase != "Deleting"),
      (∀ x ∈ filterBackups collisionBackupsC3 (fun bkp => bkp.phase != "Deleting"),
        x.startTimestamp.getD 0 ≤ b.startTimestamp.getD 0) ∧
      b.clusterLabel ≠ "hubA" ∧
      (scheduleOwnsLatestStorageBackups "hubA" (some collisionBackupsC3)).2 =
        some b :=
  (scheduleOwnsLatestStorageBackups_collision_iff "hubA" collisionBackupsC3
    (by decide)).mp (by decide)

/-- C10: a failed backup listing, or a listing whose non-Deleting filtered
set is empty, always yields ownership true with no offending backup. -/
theorem scheduleOwnsLatestStorageBackups_trivially_owns
    (schedClusterLabel : String) (backups : Option (List Backup))
    (h : backups = none ∨ ∃ items, backups = some items ∧
      filterBackups items (fun bkp => bkp.phase != "Deleting") = []) :
    scheduleOwnsLatestStorageBackups schedClusterLabel backups =
      (true, none) := by
  rcases h with rfl | ⟨items, rfl, hempty⟩
  · rfl
  · simp only [scheduleOwnsLatestStorageBackups]
    rw [hempty]
    rfl

/-- Witness for C10: the theorem applied to a listing containing only a
backup in Deleting state. -/
theorem scheduleOwnsLatestStorageBackups_trivially_owns_witness :
    scheduleOwnsLatestStorageBackups "c1"
      (some [⟨"b", 0, some 1, "Deleting", "c2"⟩]) = (true, none) :=
  scheduleOwnsLatestStorageBackups_trivially_owns "c1" _
    (Or.inr ⟨_, rfl, by decide⟩)

/-! ### C4 : cron validation failure short-circuits the cycle -/

theorem strContains_self_append (s t : String) :
    strContains (s ++ t) s = true := by
  unfold strContains
  rw [List.any_eq_true]
  refine ⟨(s ++ t).toList, ?_, ?_⟩
  · rw [List.mem_tails]
  · have hst : (s ++ t).toList = s.toList ++ t.toList := by
      simp [String.toList]
    rw [hst, List.isPrefixOf_iff_prefix]
    exact List.prefix_append _ _

theorem parseCronSchedule_invalid (cronParse : String → CronParseResult)
    (backupSchedule : BackupSchedule)
    (h : backupSchedule.veleroSchedule = "" ∨
      cronParse backupSchedule.veleroSchedule ≠ .ok) :
    ∃ m, parseCronSchedule cronParse backupSchedule = [m] ∧
      (backupSchedule.veleroSchedule = "" →
        m = "Schedule must be a non-empty valid Cron expression") ∧
      (backupSchedule.veleroSchedule ≠ "" →
        ∃ tail, m = "invalid schedule: " ++ tail) := by
  by_cases he : backupSchedule.veleroSchedule = ""
  · refine ⟨"Schedule must be a non-empty valid Cron expression", ?_,
      fun _ => rfl, fun hne => absurd he hne⟩
    unfold parseCronSchedule
    rw [if_pos (by rw [he]; rfl)]
  · have hnz : ¬ backupSchedule.veleroSchedule.length = 0 := by
      intro h0
      have hd : backupSchedule.veleroSchedule.data.length = 0 := h0
      rw [List.length_eq_zero] at hd
      exact he (String.ext (by rw [hd]))
    have hnot : cronParse backupSchedule.veleroSchedule ≠ .ok := by
      rcases h with h | h
      · exact absurd h he
      · exact h
    cases hp : cronParse backupSchedule.veleroSchedule with
    | ok => exact absurd hp hnot
    | err m =>
      refine ⟨"invalid schedule: " ++ m, ?_, fun h0 => absurd h0 he,
        fun _ => ⟨m, rfl⟩⟩
      unfold parseCronSchedule
      rw [if_neg hnz, hp]
    | panicked m =>
      refine ⟨"invalid schedule: " ++ m, ?_, fun h0 => absurd h0 he,
        fun _ => ⟨m, rfl⟩⟩
      unfold parseCronSchedule
      rw [if_neg hnz, hp]

/-- C4: for every BackupSchedule whose cron expression is empty or whose
parse fails (error return or recovered panic), the reconcile cycle sets
phase `FailedValidation` with the joined validation messages and issues only
the status update: no child schedule is listed, created or deleted; the
empty expression produces exactly the fixed message and a parse failure
produces a message containing "invalid schedule". -/
theorem reconcileBackupSchedule_invalid_cron (env : SchedEnv)
    (backupSchedule : BackupSchedule)
    (h : backupSchedule.veleroSchedule = "" ∨
      env.cronParse backupSchedule.veleroSchedule ≠ .ok) :
    (reconcileBackupSchedule env backupSchedule).sched.status.phase =
      SchedulePhase.failedValidation ∧
    (reconcileBackupSchedule env backupSchedule).sched.status.lastMessage =
      String.intercalate ","
        (parseCronSchedule env.cronParse backupSchedule) ∧
    (reconcileBackupSchedule env backupSchedule).actions =
      [SchedAction.updateStatus] ∧
    (backupSchedule.veleroSchedule = "" →
      (reconcileBackupSchedule env backupSchedule).sched.status.lastMessage =
        "Schedule must be a non-empty valid Cron expression") ∧
    (backupSchedule.veleroSchedule ≠ "" →
      strContains
        (reconcileBackupSchedule env backupSchedule).sched.status.lastMessage
        "invalid schedule" = true) := by
  obtain ⟨m, hm, hmempty, hminvalid⟩ :=
    parseCronSchedule_invalid env.cronParse backupSchedule h
  have hlen : (parseCronSchedule env.cronParse backupSchedule).length > 0 := by
    rw [hm]
    simp
  have hred : reconcileBackupSchedule env backupSchedule =
      { sched := setPhaseMsg backupSchedule .failedValidation
          (String.intercalate ","
            (parseCronSchedule env.cronParse backupSchedule))
        actions := [.updateStatus], isError := false, requeue := false } := by
    simp only [reconcileBackupSchedule]
    rw [if_pos hlen]
  have hjoin : String.intercalate ","
      (parseCronSchedule env.cronParse backupSchedule) = m := by
    rw [hm]
    rfl
  rw [hred]
  refine ⟨rfl, rfl, rfl, ?_, ?_⟩
  · intro he
    show String.intercalate ","
      (parseCronSchedule env.cronParse backupSchedule) = _
    rw [hjoin, hmempty he]
  · intro hne
    obtain ⟨tail, htail⟩ := hminvalid hne
    show strContains (String.intercalate ","
      (parseCronSchedule env.cronParse backupSchedule)) "invalid schedule" = true
    rw [hjoin, htail]
    have hsplit : "invalid schedule: " ++ tail =
        "invalid schedule" ++ (": " ++ tail) := by
      rw [← String.append_assoc]
      rfl
    rw [hsplit]
    exact strContains_self_append "invalid schedule" (": " ++ tail)

/-- Concrete environment whose cron parser always fails. -/
def envParseErrC4 : SchedEnv :=
  ⟨fun _ => .err "expected exactly 5 fields", .ok [], fun _ => none,
    fun _ => none⟩

/-- Concrete BackupSchedule with an unparseable cron expression. -/
def schedBadCronC4 : BackupSchedule :=
  ⟨"not a cron", 0, 1, ⟨.new, "", none, none, none⟩⟩

/-- Witness for C4: the theorem applied to a concrete failing parse. -/
theorem reconcileBackupSchedule_invalid_cron_witness :
    (reconcileBackupSchedule envParseErrC4 schedBadCronC4).sched.status.phase =
      SchedulePhase.failedValidation ∧
    (reconcileBackupSchedule envParseErrC4 schedBadCronC4).sched.status.lastMessage =
      String.intercalate ","
        (parseCronSchedule envParseErrC4.cronParse schedBadCronC4) ∧
    (reconcileBackupSchedule envParseErrC4 schedBadCronC4).actions =
      [SchedAction.updateStatus] ∧
    (schedBadCronC4.veleroSchedule = "" →
      (reconcileBackupSchedule envParseErrC4 schedBadCronC4).sched.status.lastMessage =
        "Schedule must be a non-empty valid Cron expression") ∧
    (schedBadCronC4.veleroSchedule ≠ "" →
      strContains
        (reconcileBackupSchedule envParseErrC4 schedBadCronC4).sched.status.lastMessage
        "invalid schedule" = true) :=
  reconcileBackupSchedule_invalid_cron envParseErrC4 schedBadCronC4
    (Or.inr (by decide))

/-! ### C7 : drift-triggered delete and recreate -/

theorem isScheduleSpecUpdated_true_iff (items : List VeleroScheduleRes)
    (backupSchedule : BackupSchedule) :
    isScheduleSpecUpdated (some items) backupSchedule = true ↔
      ((∃ v ∈ items, v.cronSpec ≠ backupSchedule.veleroSchedule) ∨
       (∃ v ∈ items, v.name ≠ veleroScheduleNames .validationSchedule ∧
         v.ttl ≠ backupSchedule.veleroTTL)) := by
  simp only [isScheduleSpecUpdated, List.any_eq_true, Bool.or_eq_true,
    Bool.and_eq_true, bne_iff_ne]
  constructor
  · rintro ⟨v, hv, ⟨hn, ht⟩ | hc⟩
    · exact Or.inr ⟨v, hv, hn, ht⟩
    · exact Or.inl ⟨v, hv, hc⟩
  · rintro (⟨v, hv, hc⟩ | ⟨v, hv, hn, ht⟩)
    · exact ⟨v, hv, Or.inr hc⟩
    · exact ⟨v, hv, Or.inl ⟨hn, ht⟩⟩

theorem deleteVeleroSchedulesGo_ok (env : SchedEnv)
    (hdel : ∀ name, env.deleteResult name = none) :
    ∀ items, deleteVeleroSchedulesGo env items =
      (items.map (fun v => SchedAction.deleteSchedule v.name), false)
  | [] => rfl
  | v :: rest => by
    simp only [deleteVeleroSchedulesGo, hdel v.name]
    rw [deleteVeleroSchedulesGo_ok env hdel rest]
    rfl

theorem deleteVeleroSchedules_ok (env : SchedEnv)
    (backupSchedule : BackupSchedule) (items : List VeleroScheduleRes)
    (hdel : ∀ name, env.deleteResult name = none) (hne : items ≠ []) :
    deleteVeleroSchedules env backupSchedule items =
      ({ backupSchedule with status :=
          { phase := .new
            lastMessage := NewPhaseMsg
            veleroScheduleManagedClusters := none
            veleroScheduleCredentials := none
            veleroScheduleResources := none } },
        items.map (fun v => SchedAction.deleteSchedule v.name), false) := by
  simp only [deleteVeleroSchedules]
  rw [if_neg (by simp [hne]), deleteVeleroSchedulesGo_ok env hdel items]
  rfl

theorem length_pos_ne_zero {items : List VeleroScheduleRes}
    (hne : items ≠ []) : ¬ items.length = 0 := by
  intro h0
  exact hne (List.length_eq_zero.mp h0)

/-- C7 (amended): for a BackupSchedule whose cron expression parses
successfully and whose child listing returns a non-empty list, when the child
deletions succeed: if some child's cron expression differs from the spec, or
some non-validation child's TTL differs from the spec TTL, the cycle issues a
delete for every owned child, clears all three per-category status
references and resets the phase to `New`; if neither differs, no delete is
issued. -/
theorem reconcileBackupSchedule_spec_drift (env : SchedEnv)
    (backupSchedule : BackupSchedule) (items : List VeleroScheduleRes)
    (hcron : env.cronParse backupSchedule.veleroSchedule = .ok)
    (hcne : backupSchedule.veleroSchedule ≠ "")
    (hlist : env.listSchedulesResult = .ok items)
    (hne : items ≠ [])
    (hdel : ∀ name, env.deleteResult name = none) :
    (((∃ v ∈ items, v.cronSpec ≠ backupSchedule.veleroSchedule) ∨
      (∃ v ∈ items, v.name ≠ veleroScheduleNames .validationSchedule ∧
        v.ttl ≠ backupSchedule.veleroTTL)) →
      (∀ v ∈ items, SchedAction.deleteSchedule v.name ∈
        (reconcileBackupSchedule env backupSchedule).actions) ∧
      (reconcileBackupSchedule env backupSchedule).sched.status.phase =
        SchedulePhase.new ∧
      (reconcileBackupSchedule env
        backupSchedule).sched.status.veleroScheduleManagedClusters = none ∧
      (reconcileBackupSchedule env
        backupSchedule).sched.status.veleroScheduleCredentials = none ∧
      (reconcileBackupSchedule env
        backupSchedule).sched.status.veleroScheduleResources = none) ∧
    (¬ ((∃ v ∈ items, v.cronSpec ≠ backupSchedule.veleroSchedule) ∨
        (∃ v ∈ items, v.name ≠ veleroScheduleNames .validationSchedule ∧
          v.ttl ≠ backupSchedule.veleroTTL)) →
      ∀ name, SchedAction.deleteSchedule name ∉
        (reconcileBackupSchedule env backupSchedule).actions) := by
  have herrs : parseCronSchedule env.cronParse backupSchedule = [] := by
    unfold parseCronSchedule
    rw [if_neg ?hnz, hcron]
    case hnz =>
      intro h0
      have hd : backupSchedule.veleroSchedule.data.length = 0 := h0
      rw [List.length_eq_zero] at hd
      exact hcne (String.ext (by rw [hd]))
  have hlen0 : ¬ (parseCronSchedule env.cronParse backupSchedule).length > 0 := by
    rw [herrs]
    simp
  constructor
  · intro hdrift
    have hupd : isScheduleSpecUpdated (some items) backupSchedule = true :=
      (isScheduleSpecUpdated_true_iff items backupSchedule).mpr hdrift
    have hred : reconcileBackupSchedule env backupSchedule =
        { sched := { backupSchedule with status :=
            { phase := .new
              lastMessage := NewPhaseMsg
              veleroScheduleManagedClusters := none
              veleroScheduleCredentials := none
              veleroScheduleResources := none } }
          actions := .listSchedules ::
            items.map (fun v => SchedAction.deleteSchedule v.name) ++
            [.updateStatus]
          isError := false, requeue := true } := by
      simp only [reconcileBackupSchedule]
      rw [if_neg hlen0]
      simp only [hlist]
      rw [if_neg (length_pos_ne_zero hne), if_pos hupd,
        deleteVeleroSchedules_ok env backupSchedule items hdel hne]
      rfl
    refine ⟨?_, by rw [hred], by rw [hred], by rw [hred], by rw [hred]⟩
    intro v hv
    rw [hred]
    have hmap : SchedAction.deleteSchedule v.name ∈
        items.map (fun v => SchedAction.deleteSchedule v.name) :=
      List.mem_map_of_mem _ hv
    exact List.mem_cons_of_mem _ (List.mem_append_left _ hmap)
  · intro hnodrift
    have hupd : ¬ isScheduleSpecUpdated (some items) backupSchedule = true :=
      fun h => hnodrift ((isScheduleSpecUpdated_true_iff items backupSchedule).mp h)
    have hred : reconcileBackupSchedule env backupSchedule =
        { sched := setSchedulePhase (some items)
            (items.foldl (fun b v => updateScheduleStatus v b) backupSchedule)
          actions := [.listSchedules,
            .cleanupBackups (backupSchedule.maxBackups * 3), .updateStatus]
          isError := false, requeue := true } := by
      simp only [reconcileBackupSchedule]
      rw [if_neg hlen0]
      simp only [hlist]
      rw [if_neg (length_pos_ne_zero hne), if_neg hupd]
    intro name
    rw [hred]
    simp

/-- Concrete BackupSchedule with an empty cron expression (invalid). -/
def schedEmptyCronC7 : BackupSchedule := ⟨"", 100, 1, ⟨.new, "", none, none, none⟩⟩

/-- Concrete drifted child: its cron expression differs from the parent's. -/
def childDriftC7 : VeleroScheduleRes :=
  ⟨"acm-credentials-schedule", "0 * * * *", 999, ""⟩

/-- Concrete environment listing the drifted child, all deletes succeeding. -/
def envDriftC7 : SchedEnv :=
  ⟨fun _ => .ok, .ok [childDriftC7], fun _ => none, fun _ => none⟩

/-- C7 counterexample: a BackupSchedule with an existing child whose cron
expression differs from the spec, where the cycle nevertheless deletes
nothing and does not reset the phase to New: the parent cron expression is
empty, so validation fails first. The claim as stated (quantified over every
BackupSchedule with drifted children) is false. -/
theorem reconcileBackupSchedule_drift_claim_false :
    envDriftC7.listSchedulesResult = .ok [childDriftC7] ∧
    childDriftC7.cronSpec ≠ schedEmptyCronC7.veleroSchedule ∧
    (∀ name, envDriftC7.deleteResult name = none) ∧
    SchedAction.deleteSchedule childDriftC7.name ∉
      (reconcileBackupSchedule envDriftC7 schedEmptyCronC7).actions ∧
    (reconcileBackupSchedule envDriftC7 schedEmptyCronC7).sched.status.phase ≠
      SchedulePhase.new :=
  ⟨rfl, by decide, fun _ => rfl, by decide, by decide⟩

/-- Concrete BackupSchedule with a valid cron expression and one-hour TTL. -/
def schedC7 : BackupSchedule :=
  ⟨"0 * * * *", 3600000000000, 2, ⟨.enabled, "", none, none, none⟩⟩

/-- Concrete non-validation child whose TTL differs from the spec TTL. -/
def childTTLDriftC7 : VeleroScheduleRes :=
  ⟨"acm-credentials-schedule", "0 * * * *", 7, "Enabled"⟩

/-- Concrete environment listing the TTL-drifted child. -/
def envC7 : SchedEnv :=
  ⟨fun _ => .ok, .ok [childTTLDriftC7], fun _ => none, fun _ => none⟩

/-- Witness for the amended C7: the theorem applied to a concrete
TTL-drifted child. -/
theorem reconcileBackupSchedule_spec_drift_witness :
    (∀ v ∈ [childTTLDriftC7], SchedAction.deleteSchedule v.name ∈
      (reconcileBackupSchedule envC7 schedC7).actions) ∧
    (reconcileBackupSchedule envC7 schedC7).sched.status.phase =
      SchedulePhase.new ∧
    (reconcileBackupSchedule envC7
      schedC7).sched.status.veleroScheduleManagedClusters = none ∧
    (reconcileBackupSchedule envC7
      schedC7).sched.status.veleroScheduleCredentials = none ∧
    (reconcileBackupSchedule envC7
      schedC7).sched.status.veleroScheduleResources = none :=
  (reconcileBackupSchedule_spec_drift envC7 schedC7 [childTTLDriftC7] rfl
    (by decide) rfl (by decide) (fun _ => rfl)).1
    (Or.inr ⟨childTTLDriftC7, by decide, by decide, by decide⟩)

/-! ### C5, C6, C8 : restore sync validation and phase -/

/-- C5: `isValidSyncOptions` is true iff sync is enabled, cleanup is `All`,
the managed-clusters selection is present, the resources selection is
exactly "latest" and the credentials selection is "latest" or "skip"; it is
false in every other case, in particular when any selection is nil. -/
theorem isValidSyncOptions_true_iff (restore : Restore) :
    isValidSyncOptions restore = true ↔
      (restore.syncRestoreWithNewBackups = true ∧
       restore.cleanupBeforeRestore = CleanupType.cleanupAll ∧
       restore.veleroManagedClustersBackupName ≠ none ∧
       restore.veleroResourcesBackupName = some "latest" ∧
       (restore.veleroCredentialsBackupName = some "latest" ∨
        restore.veleroCredentialsBackupName = some "skip")) := by
  simp only [isValidSyncOptions, Bool.and_eq_true, Bool.or_eq_true,
    beq_iff_eq, Option.isSome_iff_ne_none]
  tauto

/-- C8: `isSkipAllRestores` is true iff each of the three category
selections is nil or exactly "skip". -/
theorem isSkipAllRestores_true_iff (restore : Restore) :
    isSkipAllRestores restore = true ↔
      ((restore.veleroManagedClustersBackupName = none ∨
        restore.veleroManagedClustersBackupName = some "skip") ∧
       (restore.veleroCredentialsBackupName = none ∨
        restore.veleroCredentialsBackupName = some "skip") ∧
       (restore.veleroResourcesBackupName = none ∨
        restore.veleroResourcesBackupName = some "skip")) := by
  have hone : ∀ sel : Option String, isSkipRestoreName sel = true ↔
      (sel = none ∨ sel = some "skip") := by
    intro sel
    cases sel <;> simp [isSkipRestoreName]
  simp only [isSkipAllRestores, Bool.and_eq_true, hone]
  tauto

/-- C6: with no owned velero restore sub-resources (nil or empty list),
`setRestorePhase` returns `Finished` exactly when `isSkipAllRestores` holds
and `Started` exactly otherwise, whatever the Restore's current phase. -/
theorem setRestorePhase_no_children (restore : Restore)
    (restoreList : Option (List VeleroRestoreRes))
    (h : restoreList = none ∨ restoreList = some []) :
    (setRestorePhase restoreList restore = RestorePhase.finished ↔
      isSkipAllRestores restore = true) ∧
    (setRestorePhase restoreList restore = RestorePhase.started ↔
      isSkipAllRestores restore = false) := by
  rcases h with rfl | rfl <;>
    · unfold setRestorePhase
      by_cases hs : isSkipAllRestores restore = true
      · rw [if_pos hs]
        simp [hs]
      · rw [if_neg hs]
        simp_all

/-- Concrete Restore skipping all three categories, currently Running. -/
def restoreSkipAllC6 : Restore :=
  ⟨true, 15, .cleanupNone, some "skip", some "skip", some "skip", .running⟩

/-- Witness for C6: the theorem applied to a concrete skip-all Restore with
a nil sub-resource list. -/
theorem setRestorePhase_no_children_witness :
    (setRestorePhase none restoreSkipAllC6 = RestorePhase.finished ↔
      isSkipAllRestores restoreSkipAllC6 = true) ∧
    (setRestorePhase none restoreSkipAllC6 = RestorePhase.started ↔
      isSkipAllRestores restoreSkipAllC6 = false) :=
  setRestorePhase_no_children restoreSkipAllC6 none (Or.inl rfl)

/-! ### C9 : dynamic resource deletion rules -/

/-- C9: deleting a namespaced resource is suppressed iff its namespace is
the reserved local-cluster namespace, is in the caller-supplied exclusion
list, or the resource carries the velero.io/exclude-from-backup=true label;
a cluster-scoped resource is always processed. -/
theorem deleteDynamicResource_suppressed_iff (resource : DynResource)
    (excludedNamespaces : List String) :
    (deleteDynamicResource .namespaced resource excludedNamespaces = false ↔
      (resource.ns = "local-cluster" ∨ resource.ns ∈ excludedNamespaces ∨
        getLabel resource.labels "velero.io/exclude-from-backup" = "true")) ∧
    deleteDynamicResource .clusterScoped resource excludedNamespaces =
      true := by
  constructor
  · simp only [deleteDynamicResource, Bool.not_eq_false', Bool.or_eq_true,
      beq_iff_eq, List.elem_iff, decide_eq_true_eq]
    tauto
  · rfl
